import Mathlib

/-!
Verification development for the Tokopedia scraping pipeline
(`src/utils/helpers.py`, `src/layers/ranking_layer.py`, `src/layers/search_layer.py`,
`src/layers/image_layer.py`, `src/layers/normalization_layer.py`, `src/app.py`).

Python text is embedded as `List Char` (one entry per code point, ASCII fragment of
the relevant `re` character classes).  Python floats are embedded as exact rationals
`ℚ`.  DOM access, the network and the file system are external collaborators and are
embedded as explicit oracles passed to the functions that consult them.
-/

set_option maxRecDepth 4000

/-- Text as a list of characters (Python `str`). -/
abbrev Str := List Char

/-- Convenience: the character list of a literal. -/
def chars (s : String) : Str := s.data

/-- ASCII whitespace, the fragment of Python's `\s` / `str.strip` relevant here. -/
def isSpaceC (c : Char) : Bool :=
  c = ' ' || c = '\t' || c = '\n' || c = '\x0d' || c = '\x0b' || c = '\x0c'

/-- ASCII digit (`\d`). -/
def isDigitC (c : Char) : Bool := 48 ≤ c.toNat && c.toNat ≤ 57

/-- ASCII uppercase letter. -/
def isUpperC (c : Char) : Bool := 65 ≤ c.toNat && c.toNat ≤ 90

/-- ASCII lowercase letter. -/
def isLowerC (c : Char) : Bool := 97 ≤ c.toNat && c.toNat ≤ 122

/-- ASCII letter or digit. -/
def isAlnumC (c : Char) : Bool := isDigitC c || isUpperC c || isLowerC c

/-- Word character (`\w`, ASCII fragment): letters, digits, underscore. -/
def isWordC (c : Char) : Bool := isAlnumC c || c = '_'

/-- `str.lower` on one character (ASCII fragment). -/
def lowerChar (c : Char) : Char :=
  if 65 ≤ c.toNat ∧ c.toNat ≤ 90 then Char.ofNat (c.toNat + 32) else c

/-- `str.lower`. -/
def lowerStr (s : Str) : Str := s.map lowerChar

/-- `str.lstrip` (whitespace). -/
def lstrip (s : Str) : Str := s.dropWhile isSpaceC

/-- `str.rstrip` (whitespace). -/
def rstrip (s : Str) : Str := (s.reverse.dropWhile isSpaceC).reverse

/-- `str.strip` (whitespace). -/
def strip (s : Str) : Str := rstrip (lstrip s)

/-- Helper for `collapseWs`; the flag records whether the scanner is inside a
whitespace run that has already emitted its single space. -/
def collapseWsAux : Bool → Str → Str
  | _, [] => []
  | inRun, c :: cs =>
    if isSpaceC c then
      if inRun then collapseWsAux true cs
      else ' ' :: collapseWsAux true cs
    else c :: collapseWsAux false cs

/-- `re.sub(r'\s+', ' ', s)`: replace each maximal whitespace run by one space. -/
def collapseWs (s : Str) : Str := collapseWsAux false s

/-- `helpers.normalize_keyword`: lowercase, trim, drop characters outside
`[\w\s-]`, collapse whitespace runs, trim again. -/
def normalize_keyword (keyword : Str) : Str :=
  if keyword = [] then []
  else
    let s1 := strip keyword
    let s2 := lowerStr s1
    let s3 := s2.filter (fun c => isWordC c || isSpaceC c || c = '-')
    let s4 := collapseWs s3
    strip s4

/-- One step of the dedup loop in `helpers.normalize_keywords`
(`seen` is the set of keywords already emitted). -/
def dedupeNonempty (seen : List Str) : List Str → List Str
  | [] => []
  | kw :: kws =>
    if kw ≠ [] ∧ kw ∉ seen then kw :: dedupeNonempty (kw :: seen) kws
    else dedupeNonempty seen kws

/-- `helpers.normalize_keywords`: normalize each truthy entry, then drop empty
results and duplicates preserving first occurrence. -/
def normalize_keywords (keywords : List Str) : List Str :=
  let normalized := (keywords.filter (fun kw => kw ≠ [])).map normalize_keyword
  dedupeNonempty [] normalized

/-- `str.upper` on one character (ASCII fragment). -/
def upperChar (c : Char) : Char :=
  if 97 ≤ c.toNat ∧ c.toNat ≤ 122 then Char.ofNat (c.toNat - 32) else c

/-- Numeric value of an ASCII digit string. -/
def natOfDigits (s : Str) : ℕ := s.foldl (fun acc c => 10 * acc + (c.toNat - 48)) 0

/-- Digit-level core of the Python `float()` model: integer part, fractional
part and number of fractional digits, or `none` if the string is not a valid
(unsigned, exponent-free) float literal made of digits and at most one dot. -/
def pyFloatParts (s : Str) : Option (ℕ × ℕ × ℕ) :=
  match List.splitOn '.' s with
  | [i] =>
    if i ≠ [] ∧ i.all isDigitC then some (natOfDigits i, 0, 0) else none
  | [i, f] =>
    if (i ≠ [] ∨ f ≠ []) ∧ i.all isDigitC ∧ f.all isDigitC then
      some (natOfDigits i, natOfDigits f, f.length)
    else none
  | _ => none

/-- Model of Python `float()` restricted to the strings `extract_price_number`
can feed it: digits with at most one dot. -/
def pyFloatParse (s : Str) : Option ℚ :=
  (pyFloatParts s).map (fun p => (p.1 : ℚ) + (p.2.1 : ℚ) / (10 : ℚ) ^ p.2.2)

/-- The cleaning phase of `helpers.extract_price_number`: keep `[\d.,]`, delete
dots (Indonesian thousands separators), turn the comma into a decimal dot. -/
def extract_price_clean (price_text : Str) : Str :=
  let cleaned := price_text.filter (fun c => isDigitC c || c = '.' || c = ',')
  (cleaned.filter (fun c => c ≠ '.')).map (fun c => if c = ',' then '.' else c)

/-- `helpers.extract_price_number`: clean the text, then parse as a float;
`None` on empty input or parse failure. -/
def extract_price_number (price_text : Str) : Option ℚ :=
  if price_text = [] then none
  else pyFloatParse (extract_price_clean price_text)

/-- Substring test (Python `in` on strings). -/
def strContains (hay needle : Str) : Bool := decide (needle <:+: hay)

/-- `helpers.extract_currency`: look for currency markers in the uppercased
text, defaulting to IDR. -/
def extract_currency (price_text : Str) : Str :=
  if price_text = [] then chars "IDR"
  else
    let up := price_text.map upperChar
    if strContains up (chars "RP") || strContains up (chars "RUPIAH") then chars "IDR"
    else if strContains up (chars "$") || strContains up (chars "USD") then chars "USD"
    else if strContains up (chars "€") || strContains up (chars "EUR") then chars "EUR"
    else chars "IDR"

/-! ## `layers/ranking_layer.py` -/

/-- A product record (the dict shape flowing through the pipeline: discovery
candidate fields plus the detail/merge fields added in `app.run_pipeline`). -/
structure Record where
  product_name : Str
  description : Str
  price : Option ℚ
  currency : Str
  image_url : Str
  store_name : Str
  product_url : Str
  image_urls : List Str
  image_local_path : Str
  image_local_paths : List Str
  input_keyword : Str
  source_site : Str
  scraped_at : Str
deriving DecidableEq

/-- The record with every field empty/None. -/
def emptyRecord : Record := ⟨[], [], none, [], [], [], [], [], [], [], [], [], []⟩

/-- `ranking_layer._tokenize`: lowercase, replace `[^a-z0-9\s]` by a space,
collapse whitespace, strip, split on single spaces, drop empty tokens. -/
def _tokenize (s : Str) : List Str :=
  let s1 := lowerStr s
  let s2 := s1.map (fun c => if isLowerC c || isDigitC c || isSpaceC c then c else ' ')
  let s3 := strip (collapseWs s2)
  (List.splitOn ' ' s3).filter (fun t => t ≠ [])

/-- `ranking_layer._relevance_score`: Jaccard similarity of the token sets. -/
def _relevance_score (keyword name : Str) : ℚ :=
  let kw_t := (_tokenize keyword).toFinset
  let nm_t := (_tokenize name).toFinset
  if kw_t = ∅ ∨ nm_t = ∅ then 0
  else ((kw_t ∩ nm_t).card : ℚ) / ((kw_t ∪ nm_t).card : ℚ)

/-- Whether a string field counts as filled (`isinstance(v, str) and v.strip()`). -/
def strFilled (s : Str) : Bool := strip s ≠ []

/-- `ranking_layer._completeness_score`: fraction of the six essential fields
that are filled (strings non-blank, price a positive number). -/
def _completeness_score (p : Record) : ℚ :=
  let score : ℕ :=
    (if strFilled p.product_name then 1 else 0) +
    (match p.price with | some v => if 0 < v then 1 else 0 | none => 0) +
    (if strFilled p.product_url then 1 else 0) +
    (if strFilled p.store_name then 1 else 0) +
    (if strFilled p.image_url then 1 else 0) +
    (if strFilled p.description then 1 else 0)
  (score : ℚ) / 6

/-- `ranking_layer._extract_prices`: the positive numeric prices, in order. -/
def _extract_prices (products : List Record) : List ℚ :=
  products.filterMap (fun p =>
    match p.price with
    | some v => if 0 < v then some v else none
    | none => none)

/-- The fractional index `k = (len(vals) - 1) * p` inside `_iqr_bounds.pct`. -/
def pctK (vals : List ℚ) (p : ℚ) : ℚ := ((vals.length - 1 : ℕ) : ℚ) * p

/-- The linear-interpolated percentile helper `pct` inside
`ranking_layer._iqr_bounds` (argument `vals` is already sorted; `f`/`c` are
the floor and ceiling of the fractional index `k`). -/
def pct (vals : List ℚ) (p : ℚ) : ℚ :=
  if ⌊pctK vals p⌋ = ⌈pctK vals p⌉ then vals.getD ⌊pctK vals p⌋.toNat 0
  else
    vals.getD ⌊pctK vals p⌋.toNat 0 * ((⌈pctK vals p⌉ : ℚ) - pctK vals p) +
      vals.getD ⌈pctK vals p⌉.toNat 0 * (pctK vals p - (⌊pctK vals p⌋ : ℚ))

/-- `ranking_layer._iqr_bounds`: `(low, high)`; `high = none` models the
`float("inf")` returned when fewer than four values are available. -/
def _iqr_bounds (values : List ℚ) : ℚ × Option ℚ :=
  let vals := List.insertionSort (fun a b : ℚ => a ≤ b) values
  if vals.length < 4 then (0, none)
  else
    let q1 := pct vals (1/4)
    let q3 := pct vals (3/4)
    let iqr := q3 - q1
    (max 0 (q1 - 3/2 * iqr), some (q3 + 3/2 * iqr))

/-- Comparison against the (possibly infinite) upper IQR bound. -/
def priceAboveHigh (price : ℚ) : Option ℚ → Bool
  | none => false
  | some h => decide (h < price)

/-- The keep/drop decision of the price-filter loop in
`ranking_layer.rank_and_select_top_n`, on the record's price value. -/
def keepPrice (nprices : ℕ) (low : ℚ) (high : Option ℚ) : Option ℚ → Bool
  | none => true
  | some price =>
    if 0 < price then
      if 8 ≤ nprices ∧ (price < low ∨ priceAboveHigh price high = true) then false
      else if price < 500 ∨ 200000000 < price then false
      else true
    else true

/-- The per-record keep/drop decision of the price-filter loop. -/
def keepProduct (nprices : ℕ) (low : ℚ) (high : Option ℚ) (p : Record) : Bool :=
  keepPrice nprices low high p.price

/-- The `filtered` list computed by `ranking_layer.rank_and_select_top_n`. -/
def survivors (products : List Record) : List Record :=
  let prices := _extract_prices products
  let bounds := _iqr_bounds prices
  products.filter (keepProduct prices.length bounds.1 bounds.2)

/-- The composite score `0.75 * relevance + 0.25 * completeness`. -/
def compositeScore (keyword : Str) (p : Record) : ℚ :=
  3/4 * _relevance_score keyword p.product_name + 1/4 * _completeness_score p

/-- Stable descending insertion: place `x` before the first element whose score
is not larger (so equal scores keep the earlier element first). -/
def insertDesc (x : ℚ × Record) : List (ℚ × Record) → List (ℚ × Record)
  | [] => [x]
  | y :: ys => if y.1 ≤ x.1 then x :: y :: ys else y :: insertDesc x ys

/-- Stable sort by descending score, the embedding of Python's stable
`scored.sort(key=..., reverse=True)`. -/
def sortDescStable : List (ℚ × Record) → List (ℚ × Record)
  | [] => []
  | x :: xs => insertDesc x (sortDescStable xs)

/-- `ranking_layer.rank_and_select_top_n`. -/
def rank_and_select_top_n (keyword : Str) (products : List Record) (top_n : ℕ) : List Record :=
  if products = [] then []
  else
    let scored := (survivors products).map (fun p => (compositeScore keyword p, p))
    ((sortDescStable scored).take top_n).map (fun x => x.2)

/-! ## `layers/search_layer.py` -/

/-- `config.TOKOPEDIA_BASE_URL`. -/
def TOKOPEDIA_BASE_URL : Str := chars "https://www.tokopedia.com"

/-- `config.MAX_RETRIES` (default). -/
def MAX_RETRIES : ℕ := 3

/-- `config.SKIP_CAPTCHA_CHECK` (default). -/
def SKIP_CAPTCHA_CHECK : Bool := false

/-- `search_layer._normalize_url`. -/
def _normalize_url (url : Str) : Str :=
  if url = [] then []
  else if (chars "//").isPrefixOf url then chars "https:" ++ url
  else if (chars "/").isPrefixOf url then TOKOPEDIA_BASE_URL ++ url
  else url

/-- Split a list at the first occurrence of `sep`, returning the pieces before
and after it. -/
def splitFirst (sep : Str) : Str → Option (Str × Str)
  | [] => if sep = [] then some ([], []) else none
  | c :: cs =>
    if sep.isPrefixOf (c :: cs) then some ([], (c :: cs).drop sep.length)
    else match splitFirst sep cs with
      | some (pre, post) => some (c :: pre, post)
      | none => none

/-- Model of `urllib.parse.urlparse` restricted to what
`_looks_like_product_url` consults: the network location and the path of a
`scheme://netloc/path?query#fragment`-shaped string (no scheme: everything up
to `?`/`#` is path, netloc empty). -/
def urlNetlocPath (u : Str) : Str × Str :=
  match splitFirst (chars "://") u with
  | none => ([], u.takeWhile (fun c => c ≠ '?' ∧ c ≠ '#'))
  | some (_, rest) =>
    let netloc := rest.takeWhile (fun c => c ≠ '/' ∧ c ≠ '?' ∧ c ≠ '#')
    let after := rest.drop netloc.length
    (netloc, after.takeWhile (fun c => c ≠ '?' ∧ c ≠ '#'))

/-- `search_layer._NON_PRODUCT_FIRST_SEGMENTS`. -/
def _NON_PRODUCT_FIRST_SEGMENTS : List Str :=
  [chars "search", chars "cart", chars "help", chars "promo", chars "discover",
   chars "blog", chars "about", chars "careers", chars "mitra", chars "seller",
   chars "admin", chars "events", chars "ta", chars "login", chars "register",
   chars "oauth", chars "category", chars "kategori"]

/-- The non-empty path segments of the (normalized) URL fed to the validator
(the `segments` local of `_looks_like_product_url`). -/
def productUrlSegments (url : Str) : List Str :=
  (List.splitOn '/' (urlNetlocPath (_normalize_url url)).2).filter (fun s => s ≠ [])

/-- The path of the (normalized) URL fed to the validator. -/
def productUrlPath (url : Str) : Str := (urlNetlocPath (_normalize_url url)).2

/-- `search_layer._looks_like_product_url` (the locals `u`, `host`, `path` and
`segments` of the source are written out via `productUrlPath` /
`productUrlSegments`). -/
def _looks_like_product_url (url : Str) : Bool :=
  if url = [] then false
  else if !strContains (lowerStr (urlNetlocPath (_normalize_url url)).1)
      (chars "tokopedia.com") then false
  else if productUrlPath url = [] ∨ productUrlPath url = chars "/" then false
  else if productUrlSegments url = [] then false
  else if (chars "p") ∈ productUrlSegments url ∧
      strContains (productUrlPath url) (chars "/p/") then true
  else if (productUrlSegments url).length < 2 then false
  else if lowerStr ((productUrlSegments url).getD 0 []) ∈ _NON_PRODUCT_FIRST_SEGMENTS then false
  else if lowerStr ((productUrlSegments url).getD 1 []) ∈ [chars "category", chars "kategori"]
    then false
  else if strContains (lowerStr (productUrlPath url)) (chars "search") then false
  else true

/-! Retry model (the `tenacity` `@retry(stop=stop_after_attempt(n), ...)`
decorator).  Attempts are indexed from 0; on any exception tenacity re-invokes
the function until the attempt budget is exhausted, and then (with the default
`reraise=False`) raises a `RetryError` wrapping the last exception.  Waiting
between attempts is not modelled. -/

/-- Result of a retried call: success, or a `RetryError` carrying the last
exception after attempts are exhausted. -/
inductive RetryOutcome (ε α : Type) where
  | ok (a : α)
  | retryError (last : ε)
deriving DecidableEq

/-- `retryGo f i n`: run attempt `i` with `n` attempts remaining. -/
def retryGo (f : ℕ → Except ε α) : ℕ → ℕ → RetryOutcome ε α
  | i, 0 =>
    match f i with
    | .ok a => .ok a
    | .error e => .retryError e
  | i, n + 1 =>
    match f i with
    | .ok a => .ok a
    | .error _ => retryGo f (i + 1) n

/-- Run `f` under `stop_after_attempt maxAttempts` (at least one attempt). -/
def retryCall (maxAttempts : ℕ) (f : ℕ → Except ε α) : RetryOutcome ε α :=
  retryGo f 0 (maxAttempts - 1)

/-- How many attempts a retried call makes. -/
def retryAttemptsGo (f : ℕ → Except ε α) : ℕ → ℕ → ℕ
  | _, 0 => 1
  | i, n + 1 =>
    match f i with
    | .ok _ => 1
    | .error _ => 1 + retryAttemptsGo f (i + 1) n

/-- Number of attempts made by `retryCall maxAttempts f`. -/
def retryAttempts (maxAttempts : ℕ) (f : ℕ → Except ε α) : ℕ :=
  retryAttemptsGo f 0 (maxAttempts - 1)

/-- The `search_candidates` failure modes: the distinct blocked signal, or any
other exception. -/
inductive SearchErr where
  | blocked
  | other
deriving DecidableEq

/-- One rendered search-results page, as far as the blocking heuristic
consults it: the page content (`page.content()`), whether any product-like
indicator element matched, and the candidate records the card-extraction part
of `search_candidates` would produce from it (the DOM walk itself is driven by
the external page capability and is embedded as this oracle field). -/
structure PageView where
  content : Str
  hasProductIndicators : Bool
  extraction : List Record

/-- `has_captcha_form` in `search_candidates` (over the lowercased content). -/
def has_captcha_form (page_content : Str) : Bool :=
  strContains page_content (chars "captcha") &&
    (strContains page_content (chars "form") ||
     strContains page_content (chars "challenge") ||
     strContains page_content (chars "verify"))

/-- `has_blocked_page` in `search_candidates` (over the lowercased content). -/
def has_blocked_page (page_content : Str) : Bool :=
  strContains page_content (chars "access denied") ||
    strContains page_content (chars "blocked") ||
    strContains page_content (chars "forbidden")

/-- The blocking heuristic of `search_candidates`: markers present AND no
product indicator found (and the check not disabled). -/
def blockedDetected (pg : PageView) : Bool :=
  if SKIP_CAPTCHA_CHECK then false
  else
    let page_content := lowerStr pg.content
    (has_captcha_form page_content || has_blocked_page page_content) &&
      !pg.hasProductIndicators

/-- One (undecorated) run of `search_candidates`: raise the blocked signal per
the heuristic, otherwise return the extracted candidates. -/
def search_attempt (pg : PageView) : Except SearchErr (List Record) :=
  if blockedDetected pg then .error .blocked
  else .ok pg.extraction

/-- `search_candidates` as called through its `@retry` decorator; `pages i` is
the page state seen by attempt `i`. -/
def search_candidates (pages : ℕ → PageView) : RetryOutcome SearchErr (List Record) :=
  retryCall MAX_RETRIES (fun i => search_attempt (pages i))

/-- Dedup-by-`product_url` at the end of `search_candidates` (`seen` set,
skip falsy/seen URLs, keep first occurrence), followed by the truncation to
`max_candidates`. -/
def dedupeByUrl (seen : List Str) : List Record → List Record
  | [] => []
  | c :: cs =>
    if c.product_url = [] ∨ c.product_url ∈ seen then dedupeByUrl seen cs
    else c :: dedupeByUrl (c.product_url :: seen) cs

/-! ## `layers/image_layer.py` -/

/-- Regular expressions (Brzozowski derivatives), used to embed the compiled
`re` patterns of `helpers.validate_image_url`. -/
inductive RE where
  | fail
  | eps
  | cls (p : Char → Bool)
  | cat (a b : RE)
  | alt (a b : RE)
  | star (r : RE)

/-- Smart sequential composition (keeps derivatives small). -/
def RE.scat : RE → RE → RE
  | .fail, _ => .fail
  | .eps, b => b
  | _, .fail => .fail
  | a, .eps => a
  | a, b => .cat a b

/-- Smart alternation. -/
def RE.salt : RE → RE → RE
  | .fail, b => b
  | a, .fail => a
  | a, b => .alt a b

/-- Whether the regex accepts the empty string. -/
def RE.nullable : RE → Bool
  | .fail => false
  | .eps => true
  | .cls _ => false
  | .cat a b => a.nullable && b.nullable
  | .alt a b => a.nullable || b.nullable
  | .star _ => true

/-- Brzozowski derivative. -/
def RE.deriv : RE → Char → RE
  | .fail, _ => .fail
  | .eps, _ => .fail
  | .cls p, c => if p c then .eps else .fail
  | .cat a b, c =>
    if a.nullable then RE.salt (RE.scat (a.deriv c) b) (b.deriv c)
    else RE.scat (a.deriv c) b
  | .alt a b, c => RE.salt (a.deriv c) (b.deriv c)
  | .star r, c => RE.scat (r.deriv c) (.star r)

/-- Full match (`re.match` with a trailing `$`). -/
def RE.matchEx (r : RE) (s : Str) : Bool := (s.foldl RE.deriv r).nullable

/-- Case-insensitive literal character. -/
def RE.litCI (c : Char) : RE := .cls (fun d => lowerChar d = lowerChar c)

/-- Exact literal character. -/
def RE.lit (c : Char) : RE := .cls (fun d => d = c)

/-- Case-insensitive literal string. -/
def RE.strCI (s : Str) : RE := s.foldr (fun c r => .cat (RE.litCI c) r) .eps

/-- `r{n}`. -/
def RE.pow (r : RE) : ℕ → RE
  | 0 => .eps
  | n + 1 => .cat r (RE.pow r n)

/-- `r{0,n}`. -/
def RE.upTo (r : RE) : ℕ → RE
  | 0 => .eps
  | n + 1 => .alt .eps (.cat r (RE.upTo r n))

/-- `r{m,n}`. -/
def RE.rep (r : RE) (m n : ℕ) : RE := .cat (RE.pow r m) (RE.upTo r (n - m))

/-- `r?`. -/
def RE.opt (r : RE) : RE := .alt .eps r

/-- `r+`. -/
def RE.plus (r : RE) : RE := .cat r (.star r)

/-- `[A-Z0-9]` under `re.IGNORECASE`. -/
def alnumRE : RE := .cls (fun c => isUpperC c || isLowerC c || isDigitC c)

/-- `[A-Z0-9-]` under `re.IGNORECASE`. -/
def alnumDashRE : RE := .cls (fun c => isUpperC c || isLowerC c || isDigitC c || c = '-')

/-- `[A-Z]` under `re.IGNORECASE`. -/
def letterRE : RE := .cls (fun c => isUpperC c || isLowerC c)

/-- `\d`. -/
def digitRE : RE := .cls isDigitC

/-- `\S`. -/
def nonspaceRE : RE := .cls (fun c => !isSpaceC c)

/-- One `[A-Z0-9](?:[A-Z0-9-]{0,61}[A-Z0-9])?\.` domain label. -/
def labelDotRE : RE :=
  .cat alnumRE (.cat (RE.opt (.cat (RE.rep alnumDashRE 0 61) alnumRE)) (RE.lit '.'))

/-- The domain alternative of the URL pattern. -/
def domainRE : RE :=
  .cat (RE.plus labelDotRE) (.cat (RE.rep letterRE 2 6) (RE.opt (RE.lit '.')))

/-- `\d{1,3}`. -/
def d13RE : RE := RE.rep digitRE 1 3

/-- The IPv4 alternative of the URL pattern. -/
def ipRE : RE :=
  .cat d13RE (.cat (RE.lit '.') (.cat d13RE (.cat (RE.lit '.')
    (.cat d13RE (.cat (RE.lit '.') d13RE)))))

/-- The full `url_pattern` regex of `helpers.validate_image_url`:
`^https?://(domain|localhost|ip)(?::\d+)?(?:/?|[/?]\S+)$`, `re.IGNORECASE`. -/
def urlRE : RE :=
  .cat (RE.strCI (chars "http")) (.cat (RE.opt (RE.litCI 's'))
    (.cat (RE.strCI (chars "://"))
      (.cat (RE.alt domainRE (RE.alt (RE.strCI (chars "localhost")) ipRE))
        (.cat (RE.opt (.cat (RE.lit ':') (RE.plus digitRE)))
          (RE.alt (RE.opt (RE.lit '/'))
            (.cat (.cls (fun c => c = '/' || c = '?')) (RE.plus nonspaceRE)))))))

/-- `helpers.validate_image_url`. -/
def validate_image_url (url : Str) : Bool :=
  if url = [] then false else RE.matchEx urlRE url

/-- Fueled scanner for `re.sub` with the simple patterns used by
`_upscale_image_url`: at each position try to match-and-replace (consuming at
least one character), otherwise copy the character. -/
def subScanF (try1 : Str → Option (Str × Str)) : ℕ → Str → Str
  | 0, l => l
  | _ + 1, [] => []
  | fuel + 1, c :: cs =>
    match try1 (c :: cs) with
    | some (rewritten, rest) => rewritten ++ subScanF try1 fuel rest
    | none => c :: subScanF try1 fuel cs

/-- `re.sub` driver (fuel = input length suffices: each step consumes input). -/
def subScan (try1 : Str → Option (Str × Str)) (l : Str) : Str := subScanF try1 l.length l

/-- Decimal digits of a number. -/
def natDigitsStr (n : ℕ) : Str := Nat.toDigits 10 n

/-- Matcher for `resize-jpeg:\d+:` / `resize-webp:\d+:` (exact case), with the
target-size replacement. -/
def tryResize (tag : Str) (target : ℕ) (l : Str) : Option (Str × Str) :=
  if tag.isPrefixOf l then
    let rest := l.drop tag.length
    let ds := rest.takeWhile isDigitC
    match rest.drop ds.length with
    | ':' :: rest3 =>
      if ds ≠ [] then some (tag ++ natDigitsStr target ++ [':'], rest3) else none
    | _ => none
  else none

/-- Matcher for `/\d{2,4}x\d{2,4}/` (`re.IGNORECASE`), with replacement
`/{target}x{target}/`. -/
def tryDims (target : ℕ) (l : Str) : Option (Str × Str) :=
  match l with
  | '/' :: rest =>
    let d1 := rest.takeWhile isDigitC
    if 2 ≤ d1.length ∧ d1.length ≤ 4 then
      match rest.drop d1.length with
      | x :: rest2 =>
        if lowerChar x = 'x' then
          let d2 := rest2.takeWhile isDigitC
          if 2 ≤ d2.length ∧ d2.length ≤ 4 then
            match rest2.drop d2.length with
            | '/' :: rest3 =>
              some ('/' :: natDigitsStr target ++ 'x' :: natDigitsStr target ++ ['/'], rest3)
            | _ => none
          else none
        else none
      | [] => none
    else none
  | _ => none

/-- Case-insensitive prefix test. -/
def ciPrefix (p l : Str) : Bool := lowerStr (l.take p.length) = p

/-- Matcher for `([?&])name=\d+` (`re.IGNORECASE`), replacement
`\1name={target}` (replacement text always lowercase). -/
def tryParam (pname : Str) (target : ℕ) (l : Str) : Option (Str × Str) :=
  match l with
  | c :: rest =>
    if c = '?' ∨ c = '&' then
      if ciPrefix (pname ++ ['=']) rest then
        let rest2 := rest.drop (pname.length + 1)
        let ds := rest2.takeWhile isDigitC
        if ds ≠ [] then
          some (c :: pname ++ '=' :: natDigitsStr target, rest2.drop ds.length)
        else none
      else none
    else none
  | [] => none

/-- `image_layer.IMAGE_UPSCALE_SIZE`. -/
def IMAGE_UPSCALE_SIZE : ℕ := 2000

/-- `image_layer._upscale_image_url`: rewrite known CDN resize patterns to the
upscale target size. -/
def _upscale_image_url (url : Str) : Str :=
  if url = [] then []
  else
    let u0 := strip url
    let u1 := subScan (tryResize (chars "resize-jpeg:") IMAGE_UPSCALE_SIZE) u0
    let u2 := subScan (tryResize (chars "resize-webp:") IMAGE_UPSCALE_SIZE) u1
    let u3 := subScan (tryDims IMAGE_UPSCALE_SIZE) u2
    let u4 := subScan (tryParam (chars "w") IMAGE_UPSCALE_SIZE) u3
    let u5 := subScan (tryParam (chars "h") IMAGE_UPSCALE_SIZE) u4
    let u6 := subScan (tryParam (chars "width") IMAGE_UPSCALE_SIZE) u5
    subScan (tryParam (chars "height") IMAGE_UPSCALE_SIZE) u6

/-- Outcome of one `requests.get` of an image URL: an exception, a non-200
status, or a successful streaming response with the given chunk sizes. -/
inductive FetchResult where
  | exc
  | httpErr (code : ℕ)
  | ok (chunks : List ℕ)
deriving DecidableEq

/-- What the streaming loop leaves on disk for one fetch. -/
inductive SaveOutcome where
  | saved (bytes : ℕ)
  | notCreated
  | discarded
deriving DecidableEq

/-- `config.MAX_IMAGE_SIZE_MB` (default). -/
def MAX_IMAGE_SIZE_MB : ℕ := 5

/-- `max_bytes` in the download functions. -/
def maxImageBytes : ℕ := MAX_IMAGE_SIZE_MB * 1024 * 1024

/-- The `iter_content` write loop: skip empty chunks, count bytes, and if the
running total ever exceeds the cap unlink the partial file and stop; the file
counts as saved only if it exists with positive size afterwards. -/
def streamWrite (maxBytes : ℕ) : List ℕ → ℕ → SaveOutcome
  | [], total => if 0 < total then .saved total else .notCreated
  | ch :: rest, total =>
    if ch = 0 then streamWrite maxBytes rest total
    else if maxBytes < total + ch then .discarded
    else streamWrite maxBytes rest (total + ch)

/-- The network and file-system oracle for the image layer: `fetchAt u i` is
the outcome of the `i`-th `requests.get` of URL `u`, and `preexists (idx, u)`
says whether the (deterministically named, here keyed by sequence index and
upscaled URL) target file already exists non-empty. -/
structure ImgEnv where
  fetchAt : Str → ℕ → FetchResult
  preexists : ℕ × Str → Bool

/-- The URL dedup loop at the top of `download_product_images`. -/
def dedupeUrlStrs (seen : List Str) : List Str → List Str
  | [] => []
  | u :: us =>
    if u = [] ∨ u ∈ seen then dedupeUrlStrs seen us
    else u :: dedupeUrlStrs (u :: seen) us

/-- The per-URL loop of `download_product_images` (`idx` counts from 1 as in
`enumerate(urls, start=1)`); each URL's `requests.get` is issued once, attempt
index 0.  Returns the (index, upscaled-URL) keys of the saved files. -/
def imgLoop (env : ImgEnv) : ℕ → List Str → List (ℕ × Str)
  | _, [] => []
  | idx, url :: rest =>
    if validate_image_url url = false then imgLoop env (idx + 1) rest
    else
      let u := _upscale_image_url url
      if env.preexists (idx, u) then (idx, u) :: imgLoop env (idx + 1) rest
      else
        match env.fetchAt u 0 with
        | .exc => imgLoop env (idx + 1) rest
        | .httpErr _ => imgLoop env (idx + 1) rest
        | .ok chunks =>
          match streamWrite maxImageBytes chunks 0 with
          | .saved _ => (idx, u) :: imgLoop env (idx + 1) rest
          | _ => imgLoop env (idx + 1) rest

/-- `image_layer.download_product_images`. -/
def download_product_images (env : ImgEnv) (image_urls : List Str) : List (ℕ × Str) :=
  if image_urls = [] then []
  else imgLoop env 1 (dedupeUrlStrs [] image_urls)

/-- Modelled from the spec: "each fetch individually retried with bounded
exponential backoff on transient failure" (§4.4 step 5) — a fetch wrapped in
the retry policy, retrying on exceptions only (non-200 statuses do not raise). -/
def fetchRetried (env : ImgEnv) (u : Str) : FetchResult :=
  match retryCall MAX_RETRIES (fun i =>
    match env.fetchAt u i with
    | .exc => .error ()
    | r => Except.ok r) with
  | .ok r => r
  | .retryError _ => .exc

/-- Modelled from the spec: the batch loop as the spec describes it, i.e. with
each individual fetch going through the retry policy. -/
def imgLoopRetried (env : ImgEnv) : ℕ → List Str → List (ℕ × Str)
  | _, [] => []
  | idx, url :: rest =>
    if validate_image_url url = false then imgLoopRetried env (idx + 1) rest
    else
      let u := _upscale_image_url url
      if env.preexists (idx, u) then (idx, u) :: imgLoopRetried env (idx + 1) rest
      else
        match fetchRetried env u with
        | .exc => imgLoopRetried env (idx + 1) rest
        | .httpErr _ => imgLoopRetried env (idx + 1) rest
        | .ok chunks =>
          match streamWrite maxImageBytes chunks 0 with
          | .saved _ => (idx, u) :: imgLoopRetried env (idx + 1) rest
          | _ => imgLoopRetried env (idx + 1) rest

/-- Modelled from the spec: `download_product_images` with retried fetches. -/
def download_product_images_retried (env : ImgEnv) (image_urls : List Str) : List (ℕ × Str) :=
  if image_urls = [] then []
  else imgLoopRetried env 1 (dedupeUrlStrs [] image_urls)

/-! ## `layers/normalization_layer.py` -/

/-- The `price` value of an upstream row: a number or a string. -/
inductive PriceIn where
  | pnum (q : ℚ)
  | pstr (s : Str)
deriving DecidableEq

/-- An upstream row as `normalize_output_row` receives it: every field may be
missing (`none` covers both an absent key and a `None` value, which
`row.get(...)`/falsiness treat alike). -/
structure InRow where
  input_keyword : Option Str
  product_name : Option Str
  description : Option Str
  price : Option PriceIn
  currency : Option Str
  image_url : Option Str
  image_local_path : Option Str
  image_urls : Option (List Str)
  image_local_paths : Option (List Str)
  store_name : Option Str
  product_url : Option Str
  source_site : Option Str
  scraped_at : Option Str
deriving DecidableEq

/-- The row with every upstream field missing. -/
def emptyInRow : InRow :=
  ⟨none, none, none, none, none, none, none, none, none, none, none, none, none⟩

/-- A cell of the output row: a string, a number, or `None`. -/
inductive Val where
  | vs (s : Str)
  | vnum (q : ℚ)
  | vnull
deriving DecidableEq

/-- `config.OUTPUT_SCHEMA`. -/
def OUTPUT_SCHEMA : List Str :=
  [chars "input_keyword", chars "product_name", chars "description", chars "price",
   chars "currency", chars "image_url", chars "image_local_path", chars "image_urls",
   chars "image_local_paths", chars "store_name", chars "product_url",
   chars "source_site", chars "scraped_at"]

/-- `row.get(k) or ""` for a string field (absent, `None` and `""` all give `""`). -/
def orEmpty : Option Str → Str
  | none => []
  | some s => s

/-- `normalization_layer._list_to_newline_text` on a list/None value. -/
def _list_to_newline_text : Option (List Str) → Str
  | none => []
  | some v => List.intercalate (chars "\n") ((v.map strip).filter (fun x => x ≠ []))

/-- Stand-in for Python `str()` of a float: some digits/dot/minus rendering.
Only `extract_currency` consumes this text, and it returns "IDR" on any text
made of digits, dots and minus signs, so the exact rendering is immaterial. -/
def pyStrOfFloat (q : ℚ) : Str :=
  (if q < 0 then chars "-" else []) ++ natDigitsStr q.num.natAbs ++ chars "." ++ natDigitsStr q.den

/-- `str(row.get("price", ""))` as consumed by the currency fallback. -/
def strOfPriceField : Option PriceIn → Str
  | none => []
  | some (.pstr s) => s
  | some (.pnum q) => pyStrOfFloat q

/-- The `out.setdefault(k, "")` loop over `config.OUTPUT_SCHEMA`. -/
def applySetdefault (out : List (Str × Val)) : List (Str × Val) :=
  OUTPUT_SCHEMA.foldl (fun o k => if (o.lookup k).isSome then o else o ++ [(k, .vs [])]) out

/-- The `price_val` local of `normalize_output_row`: a number passes through,
a non-blank string is re-parsed, everything else is `None`. -/
def priceValOf (row : InRow) : Option ℚ :=
  match row.price with
  | some (.pnum q) => some q
  | some (.pstr s) => if strip s ≠ [] then extract_price_number s else none
  | none => none

/-- `row.get("currency") or extract_currency(str(row.get("price", "")))`. -/
def currency0Of (row : InRow) : Str :=
  match row.currency with
  | some c => if c ≠ [] then c else extract_currency (strOfPriceField row.price)
  | none => extract_currency (strOfPriceField row.price)

/-- The `currency` local of `normalize_output_row`: the upstream/fallback
currency, then `"IDR"` if still falsy. -/
def currencyOf (row : InRow) : Str :=
  if currency0Of row = [] then chars "IDR" else currency0Of row

/-- The `price` cell (`None` stays null, numbers stay numbers). -/
def priceOutOf (row : InRow) : Val :=
  match priceValOf row with
  | none => .vnull
  | some q => .vnum q

/-- The `source_site` cell: `(row.get("source_site") or "tokopedia").strip()`. -/
def sourceSiteOf (row : InRow) : Str :=
  strip (match row.source_site with
    | some site => if site ≠ [] then site else chars "tokopedia"
    | none => chars "tokopedia")

/-- The `out` dict literal of `normalize_output_row`, in source order. -/
def outPairs (row : InRow) : List (Str × Val) :=
  [(chars "input_keyword", .vs (strip (orEmpty row.input_keyword))),
   (chars "product_name", .vs (strip (orEmpty row.product_name))),
   (chars "description", .vs (strip (orEmpty row.description))),
   (chars "price", priceOutOf row),
   (chars "currency", .vs (currencyOf row)),
   (chars "image_url", .vs (strip (orEmpty row.image_url))),
   (chars "image_local_path", .vs (strip (orEmpty row.image_local_path))),
   (chars "image_urls", .vs (_list_to_newline_text row.image_urls)),
   (chars "image_local_paths", .vs (_list_to_newline_text row.image_local_paths)),
   (chars "store_name", .vs (strip (orEmpty row.store_name))),
   (chars "product_url", .vs (strip (orEmpty row.product_url))),
   (chars "source_site", .vs (sourceSiteOf row)),
   (chars "scraped_at", .vs (strip (orEmpty row.scraped_at)))]

/-- `normalization_layer.normalize_output_row`. -/
def normalize_output_row (row : InRow) : List (Str × Val) :=
  applySetdefault (outPairs row)

/-! ## `app.py` (`run_pipeline`) -/

/-- The dict returned by `detail_layer.scrape_product_detail`. -/
structure DetailFields where
  product_name : Str
  description : Str
  price : Option ℚ
  currency : Str
  image_url : Str
  image_urls : List Str
  store_name : Str
deriving DecidableEq

/-- `{**cand, **detail}`: the detail keys override the candidate's. -/
def mergeDetail (cand : Record) (d : DetailFields) : Record :=
  { cand with
    product_name := d.product_name
    description := d.description
    price := d.price
    currency := d.currency
    image_url := d.image_url
    image_urls := d.image_urls
    store_name := d.store_name }

/-- The per-candidate detail loop of `run_pipeline`: skip candidates without a
URL, skip candidates whose detail scrape raises (`resolve` returns `none`),
and stamp `input_keyword` / `source_site` / `scraped_at` on the merged record. -/
def detailLoop (kw now : Str) (resolve : Record → Option DetailFields) :
    List Record → List Record
  | [] => []
  | cand :: rest =>
    if cand.product_url = [] then detailLoop kw now resolve rest
    else
      match resolve cand with
      | none => detailLoop kw now resolve rest
      | some d =>
        { mergeDetail cand d with
            input_keyword := kw
            source_site := chars "tokopedia"
            scraped_at := now } :: detailLoop kw now resolve rest

/-- View a fully-populated pipeline record as a `normalize_output_row` input. -/
def Record.toInRow (r : Record) : InRow :=
  { input_keyword := some r.input_keyword
    product_name := some r.product_name
    description := some r.description
    price := r.price.map PriceIn.pnum
    currency := some r.currency
    image_url := some r.image_url
    image_local_path := some r.image_local_path
    image_urls := some r.image_urls
    image_local_paths := some r.image_local_paths
    store_name := some r.store_name
    product_url := some r.product_url
    source_site := some r.source_site
    scraped_at := some r.scraped_at }

/-- The per-keyword body of the `run_pipeline` loop (run with image download
disabled, which sets the two local-path fields to empty): discovery result in,
normalized output rows out.  Step 3 of the loop takes `detailed[:2]` directly
("Langsung pakai 2 produk (tidak perlu ranking karena hanya 2)"). -/
def processKeyword (kw now : Str) (candidates : List Record)
    (resolve : Record → Option DetailFields) : List (List (Str × Val)) :=
  if candidates = [] then []
  else
    let detailed := detailLoop kw now resolve candidates
    if detailed = [] then []
    else
      let top := detailed.take 2
      let top2 := top.map (fun t => { t with image_local_path := [], image_local_paths := [] })
      top2.map (fun t => normalize_output_row t.toInRow)

/-- The whole keyword loop of `run_pipeline`: a keyword whose discovery raises
(`search kw = none`) contributes no rows and the loop continues. -/
def run_pipeline_rows (now : Str) (search : Str → Option (List Record))
    (resolve : Record → Option DetailFields) (keywords : List Str) :
    List (List (Str × Val)) :=
  keywords.flatMap (fun kw =>
    match search kw with
    | none => []
    | some cands => processKeyword kw now cands resolve)

/-! ## Statement-side quantities and concrete inputs used by the theorems -/

/-- A list with no leading whitespace character. -/
def noLeadSpace (l : Str) : Prop := ∀ c, l.head? = some c → isSpaceC c = false

/-- The "no two adjacent whitespace characters" relation. -/
def noWsPair (a b : Char) : Prop := ¬(isSpaceC a = true ∧ isSpaceC b = true)

/-- The sorted positive prices of a record list (`vals` inside `_iqr_bounds`). -/
def sortedPricesOf (ps : List Record) : List ℚ :=
  List.insertionSort (fun a b : ℚ => a ≤ b) (_extract_prices ps)

/-- The interpolated first quartile of the positive prices. -/
def q1Of (ps : List Record) : ℚ := pct (sortedPricesOf ps) (1/4)

/-- The interpolated third quartile of the positive prices. -/
def q3Of (ps : List Record) : ℚ := pct (sortedPricesOf ps) (3/4)

/-- A page whose rendered text contains verification markers and which has no
product-like indicator element. -/
def blockedPage : PageView :=
  ⟨chars "Please VERIFY you are human - captcha challenge ahead", false, []⟩

/-- A well-formed image URL (passes `validate_image_url`, no CDN resize
pattern). -/
def cUrl : Str := chars "https://cdn.example.com/img.jpg"

/-- Network oracle: first `requests.get` of any URL raises, the next succeeds
with one 100-byte chunk; no file preexists. -/
def imgEnvFailThenOk : ImgEnv :=
  ⟨fun _ i => if i = 0 then .exc else .ok [100], fun _ => false⟩

/-- Network oracle: every `requests.get` raises; no file preexists. -/
def imgEnvAllFail : ImgEnv := ⟨fun _ _ => .exc, fun _ => false⟩

/-- Network oracle: every `requests.get` succeeds with one 7-byte chunk. -/
def imgEnvOk7 : ImgEnv := ⟨fun _ _ => .ok [7], fun _ => false⟩

/-- Discovery candidate "kaos" with a hard-out-of-bounds price. -/
def candKaos : Record :=
  { emptyRecord with
      product_name := chars "kaos"
      price := some 100
      product_url := chars "https://www.tokopedia.com/toko/kaos" }

/-- Discovery candidate "baju" with a hard-out-of-bounds price. -/
def candBaju : Record :=
  { emptyRecord with
      product_name := chars "baju"
      price := some 100
      product_url := chars "https://www.tokopedia.com/toko/baju" }

/-- Discovery candidate "sepatu" with an in-bounds price. -/
def candSepatu : Record :=
  { emptyRecord with
      product_name := chars "sepatu"
      price := some 5000
      product_url := chars "https://www.tokopedia.com/toko/sepatu" }

/-- A detail resolver that succeeds and keeps the candidate's name and price. -/
def resolveKeep : Record → Option DetailFields :=
  fun c => some ⟨c.product_name, chars "deskripsi produk", c.price, chars "IDR",
                 c.image_url, [], c.store_name⟩

/-- The keyword of the pipeline counterexample. -/
def kwSepatu : Str := chars "sepatu"

/-- A fixed timestamp for the pipeline counterexample. -/
def nowIso : Str := chars "2025-01-01T00:00:00+00:00"

/-- A record carrying only a positive price. -/
def pricedRecord (v : ℚ) : Record := { emptyRecord with price := some v }

/-- Nine priced records: eight at 1000 and one far outlier. -/
def ps9 : List Record :=
  [pricedRecord 1000, pricedRecord 1000, pricedRecord 1000, pricedRecord 1000,
   pricedRecord 1000, pricedRecord 1000, pricedRecord 1000, pricedRecord 1000,
   pricedRecord 1000000]

/-- Two records: one with a price under the hard lower bound, one unpriced. -/
def psFew : List Record := [pricedRecord 100, emptyRecord]

/-- A duplicate-free keyword list with one entry that normalizes to empty. -/
def kwListEx : List Str := [chars "kaos polos", chars "!!!"]


/-! ## Theorems -/

/-- C7: the price parser maps "Rp 150.000" to 150000, "Rp 1.250.500,50" to
1250500.50, and the empty string to None (dots as thousands separators, the
comma as decimal separator). -/
theorem extract_price_number_examples :
    extract_price_number (chars "Rp 150.000") = some 150000 ∧
    extract_price_number (chars "Rp 1.250.500,50") = some (1250500.50 : ℚ) ∧
    extract_price_number (chars "") = none := by
  refine ⟨?_, ?_, by decide⟩
  · have h : pyFloatParts (extract_price_clean (chars "Rp 150.000")) = some (150000, 0, 0) := by
      decide
    rw [extract_price_number, if_neg (by decide), pyFloatParse, h]
    norm_num
  · have h : pyFloatParts (extract_price_clean (chars "Rp 1.250.500,50")) =
        some (1250500, 50, 2) := by decide
    rw [extract_price_number, if_neg (by decide), pyFloatParse, h]
    norm_num

/-- C2: the blocking heuristic raises exactly when verification/blocking
markers are present and no product-like indicator is found; but the
`@retry` decorator retries the blocked attempt like any other exception
(three attempts with `MAX_RETRIES = 3`) and what finally reaches the caller
is a `RetryError` wrapper, not the bare blocked signal propagated from the
first attempt. -/
theorem blocked_signal_retried_by_policy :
    (∀ pg : PageView, blockedDetected pg =
        ((has_captcha_form (lowerStr pg.content) || has_blocked_page (lowerStr pg.content)) &&
          !pg.hasProductIndicators)) ∧
    (∀ pg : PageView, search_attempt pg = .error .blocked ↔ blockedDetected pg = true) ∧
    search_candidates (fun _ => blockedPage) = .retryError .blocked ∧
    retryAttempts MAX_RETRIES (fun _ => search_attempt blockedPage) = 3 := by
  refine ⟨?_, ?_, by decide, by decide⟩
  · intro pg
    simp [blockedDetected, SKIP_CAPTCHA_CHECK]
  · intro pg
    unfold search_attempt
    constructor
    · intro h
      by_cases hb : blockedDetected pg = true
      · exact hb
      · rw [if_neg hb] at h
        cases h
    · intro h
      rw [if_pos h]

/-- C6 (counterexample): the legacy "/p/" rule accepts URLs whose first path
segment is a known non-product prefix, and URLs with a single path segment. -/
theorem looks_like_product_url_shape_counterexample :
    _looks_like_product_url (chars "https://www.tokopedia.com/search/p/x") = true ∧
    lowerStr ((productUrlSegments (chars "https://www.tokopedia.com/search/p/x")).getD 0 [])
      ∈ _NON_PRODUCT_FIRST_SEGMENTS ∧
    _looks_like_product_url (chars "https://www.tokopedia.com/p/") = true ∧
    (productUrlSegments (chars "https://www.tokopedia.com/p/")).length = 1 := by
  decide

/-- C6 (amended): every URL accepted by the product-URL validator either
matches the legacy "/p/" rule (a path segment "p" together with the literal
"/p/" in the path), or has at least two non-empty path segments with a first
segment outside the known non-product prefixes. -/
theorem looks_like_product_url_shape (url : Str)
    (h : _looks_like_product_url url = true) :
    (chars "p" ∈ productUrlSegments url ∧
      strContains (productUrlPath url) (chars "/p/") = true) ∨
    (2 ≤ (productUrlSegments url).length ∧
      lowerStr ((productUrlSegments url).getD 0 []) ∉ _NON_PRODUCT_FIRST_SEGMENTS) := by
  unfold _looks_like_product_url at h
  split_ifs at h with h0 h1 h2 h3 h4 h5 h6 h7 h8
  · exact Or.inl h4
  · exact Or.inr ⟨Nat.le_of_not_lt h5, h6⟩

/-- C6 (witness): a canonical shop/product URL is accepted and satisfies the
amended shape property. -/
theorem looks_like_product_url_shape_witness :
    _looks_like_product_url (chars "https://www.tokopedia.com/tokoshop/kaos-polos") = true ∧
    ((chars "p" ∈ productUrlSegments (chars "https://www.tokopedia.com/tokoshop/kaos-polos") ∧
        strContains (productUrlPath
          (chars "https://www.tokopedia.com/tokoshop/kaos-polos")) (chars "/p/") = true) ∨
      (2 ≤ (productUrlSegments (chars "https://www.tokopedia.com/tokoshop/kaos-polos")).length ∧
        lowerStr ((productUrlSegments
            (chars "https://www.tokopedia.com/tokoshop/kaos-polos")).getD 0 [])
          ∉ _NON_PRODUCT_FIRST_SEGMENTS)) :=
  ⟨by decide, looks_like_product_url_shape _ (by decide)⟩

/-- C3 (counterexample): a transient failure on the first and only request
makes the batch fetcher skip the image even though the next attempt would
succeed; the spec-modelled retried variant saves it.  So individual fetches in
`download_product_images` are not retried. -/
theorem batch_fetch_not_retried :
    validate_image_url cUrl = true ∧
    download_product_images imgEnvFailThenOk [cUrl] = [] ∧
    download_product_images_retried imgEnvFailThenOk [cUrl] = [(1, cUrl)] := by
  decide

/-- If the bytes still to stream overflow the cap, the write loop discards the
partial file. -/
theorem streamWrite_over (maxB : ℕ) :
    ∀ chunks total, total ≤ maxB → maxB < total + chunks.sum →
      streamWrite maxB chunks total = .discarded := by
  intro chunks
  induction chunks with
  | nil => intro total h1 h2; simp at h2; omega
  | cons ch rest ih =>
    intro total h1 h2
    simp only [streamWrite, List.sum_cons] at h2 ⊢
    by_cases hz : ch = 0
    · subst hz
      rw [if_pos rfl]
      exact ih total h1 (by omega)
    · rw [if_neg hz]
      by_cases hover : maxB < total + ch
      · rw [if_pos hover]
      · rw [if_neg hover]
        exact ih (total + ch) (by omega) (by omega)

/-- If the bytes to stream fit under the cap, the loop saves the file exactly
when something was written. -/
theorem streamWrite_within (maxB : ℕ) :
    ∀ chunks total, total + chunks.sum ≤ maxB →
      streamWrite maxB chunks total =
        if 0 < total + chunks.sum then .saved (total + chunks.sum) else .notCreated := by
  intro chunks
  induction chunks with
  | nil => intro total h; simp [streamWrite]
  | cons ch rest ih =>
    intro total h
    simp only [streamWrite, List.sum_cons] at h ⊢
    by_cases hz : ch = 0
    · subst hz
      rw [if_pos rfl]
      rw [ih total (by omega)]
      simp
    · rw [if_neg hz]
      rw [if_neg (by omega)]
      rw [ih (total + ch) (by omega)]
      have h0 : 0 < total + ch + rest.sum := by omega
      have h0' : 0 < total + (ch + rest.sum) := by omega
      rw [if_pos h0, if_pos h0']
      congr 1
      omega

/-- A saved file means the full stream was positive and under the cap. -/
theorem streamWrite_saved_bounds (maxB : ℕ) (chunks : List ℕ) (b : ℕ)
    (h : streamWrite maxB chunks 0 = .saved b) :
    0 < chunks.sum ∧ chunks.sum ≤ maxB ∧ b = chunks.sum := by
  by_cases hle : chunks.sum ≤ maxB
  · rw [streamWrite_within maxB chunks 0 (by omega)] at h
    by_cases hpos : 0 < chunks.sum
    · rw [if_pos (by omega : 0 < 0 + chunks.sum)] at h
      cases h
      exact ⟨hpos, hle, by omega⟩
    · rw [if_neg (by omega)] at h
      cases h
  · rw [streamWrite_over maxB chunks 0 (by omega) (by omega)] at h
    cases h

/-- The batch loop only ever issues attempt 0 of each fetch. -/
theorem imgLoop_attempt0 (env₁ env₂ : ImgEnv)
    (hpre : env₁.preexists = env₂.preexists)
    (hf : ∀ u, env₁.fetchAt u 0 = env₂.fetchAt u 0) :
    ∀ urls idx, imgLoop env₁ idx urls = imgLoop env₂ idx urls := by
  intro urls
  induction urls with
  | nil => intro idx; rfl
  | cons url rest ih =>
    intro idx
    simp only [imgLoop]
    rw [hpre, hf]
    split
    · exact ih (idx + 1)
    · split
      · rw [ih (idx + 1)]
      · split
        · exact ih (idx + 1)
        · exact ih (idx + 1)
        · split
          · rw [ih (idx + 1)]
          · exact ih (idx + 1)

/-- Every file the batch loop reports saved either preexisted or came from an
attempt-0 fetch whose full stream was positive and within the size cap. -/
theorem imgLoop_saved_sound (env : ImgEnv) :
    ∀ urls idx entry, entry ∈ imgLoop env idx urls →
      env.preexists entry = true ∨
      ∃ chunks, env.fetchAt entry.2 0 = .ok chunks ∧
        0 < chunks.sum ∧ chunks.sum ≤ maxImageBytes := by
  intro urls
  induction urls with
  | nil => intro idx entry h; cases h
  | cons url rest ih =>
    intro idx entry h
    simp only [imgLoop] at h
    split at h
    · exact ih (idx + 1) entry h
    · split at h
      · rename_i hpre
        rcases List.mem_cons.mp h with rfl | hmem
        · exact Or.inl hpre
        · exact ih (idx + 1) entry hmem
      · split at h
        · exact ih (idx + 1) entry h
        · exact ih (idx + 1) entry h
        · rename_i chunks henv
          split at h
          · rename_i b hsw
            rcases List.mem_cons.mp h with rfl | hmem
            · obtain ⟨h1, h2, _⟩ := streamWrite_saved_bounds _ _ _ hsw
              exact Or.inr ⟨chunks, henv, h1, h2⟩
            · exact ih (idx + 1) entry hmem
          · exact ih (idx + 1) entry h

/-- C3 (amended): in `download_product_images` each image fetch is attempted
exactly once (later attempts are never consulted, so transient failures are
skipped, not retried — the retry policy exists only on the single-image
`download_product_image`); a download whose stream exceeds the hard byte cap
is aborted with the partial file discarded, and every saved file comes from a
within-cap, non-empty attempt-0 fetch or a preexisting file. -/
theorem download_product_images_spec :
    (∀ env₁ env₂ : ImgEnv, env₁.preexists = env₂.preexists →
      (∀ u, env₁.fetchAt u 0 = env₂.fetchAt u 0) →
      ∀ urls, download_product_images env₁ urls = download_product_images env₂ urls) ∧
    (∀ maxB : ℕ, ∀ chunks : List ℕ, maxB < chunks.sum →
      streamWrite maxB chunks 0 = .discarded) ∧
    (∀ maxB : ℕ, ∀ chunks : List ℕ, chunks.sum ≤ maxB →
      streamWrite maxB chunks 0 =
        if 0 < chunks.sum then .saved chunks.sum else .notCreated) ∧
    (∀ env urls entry, entry ∈ download_product_images env urls →
      env.preexists entry = true ∨
      ∃ chunks, env.fetchAt entry.2 0 = .ok chunks ∧
        0 < chunks.sum ∧ chunks.sum ≤ maxImageBytes) := by
  refine ⟨?_, ?_, ?_, ?_⟩
  · intro env₁ env₂ hpre hf urls
    unfold download_product_images
    split
    · rfl
    · exact imgLoop_attempt0 env₁ env₂ hpre hf _ 1
  · intro maxB chunks h
    exact streamWrite_over maxB chunks 0 (by omega) (by omega)
  · intro maxB chunks h
    have := streamWrite_within maxB chunks 0 (by omega)
    simpa using this
  · intro env urls entry h
    unfold download_product_images at h
    split at h
    · cases h
    · exact imgLoop_saved_sound env _ 1 entry h

/-- C3 (witness): the amended spec applied at concrete oracles. -/
theorem download_product_images_spec_witness :
    download_product_images imgEnvFailThenOk [cUrl] =
      download_product_images imgEnvAllFail [cUrl] ∧
    streamWrite 5 [10] 0 = .discarded ∧
    streamWrite 100 [10] 0 = (if 0 < (10 : ℕ) then .saved 10 else .notCreated) ∧
    (imgEnvOk7.preexists (1, cUrl) = true ∨
      ∃ chunks, imgEnvOk7.fetchAt (1, cUrl).2 0 = .ok chunks ∧
        0 < chunks.sum ∧ chunks.sum ≤ maxImageBytes) := by
  refine ⟨?_, ?_, ?_, ?_⟩
  · exact download_product_images_spec.1 imgEnvFailThenOk imgEnvAllFail rfl
      (fun u => rfl) [cUrl]
  · have h := download_product_images_spec.2.1 5 [10] (by decide)
    simpa using h
  · have h := download_product_images_spec.2.2.1 100 [10] (by decide)
    simpa using h
  · exact download_product_images_spec.2.2.2 imgEnvOk7 [cUrl] (1, cUrl) (by decide)

/-- `Char.ofNat` of a valid code point keeps its value. -/
theorem toNat_ofNat_valid (n : ℕ) (h : n.isValidChar) : (Char.ofNat n).toNat = n := by
  unfold Char.ofNat
  rw [dif_pos h]
  rfl

/-- Code-point view of `lowerChar`. -/
theorem lowerChar_toNat (c : Char) :
    (lowerChar c).toNat = if 65 ≤ c.toNat ∧ c.toNat ≤ 90 then c.toNat + 32 else c.toNat := by
  unfold lowerChar
  split
  · rename_i h
    have hv : (c.toNat + 32).isValidChar := Or.inl (by omega)
    rw [toNat_ofNat_valid _ hv]
  · rfl

/-- `lowerChar` is idempotent. -/
theorem lowerChar_idem (c : Char) : lowerChar (lowerChar c) = lowerChar c := by
  by_cases h : 65 ≤ c.toNat ∧ c.toNat ≤ 90
  · have h1 : (lowerChar c).toNat = c.toNat + 32 := by rw [lowerChar_toNat, if_pos h]
    set d := lowerChar c with hd
    unfold lowerChar
    rw [if_neg (by omega)]
  · have hc : lowerChar c = c := by unfold lowerChar; exact if_neg h
    rw [hc, hc]

/-- Whitespace characters are fixed by `lowerChar`. -/
theorem lowerChar_of_space (c : Char) (h : isSpaceC c = true) : lowerChar c = c := by
  simp only [isSpaceC, Bool.or_eq_true, decide_eq_true_eq] at h
  rcases h with ((((h | h) | h) | h) | h) | h <;> subst h <;> decide

/-- Mapping a function that fixes every member is the identity. -/
theorem map_id_of_mem {α : Type} (f : α → α) :
    ∀ l : List α, (∀ a ∈ l, f a = a) → l.map f = l := by
  intro l
  induction l with
  | nil => intro _; rfl
  | cons a rest ih =>
    intro h
    simp only [List.map_cons]
    rw [h a (List.mem_cons_self a rest), ih (fun b hb => h b (List.mem_cons_of_mem a hb))]

/-- Dropping leading whitespace leaves no leading whitespace. -/
theorem dropWhile_noLead (l : Str) : noLeadSpace (l.dropWhile isSpaceC) := by
  induction l with
  | nil => intro c hc; cases hc
  | cons a rest ih =>
    by_cases h : isSpaceC a = true
    · rw [List.dropWhile_cons_of_pos h]; exact ih
    · rw [List.dropWhile_cons_of_neg (by simp [h])]
      intro c hc
      cases hc
      simpa using h

/-- `rstrip` is a prefix of the original. -/
theorem rstrip_isPrefixOfSelf (l : Str) : rstrip l <+: l := by
  have h : (l.reverse.dropWhile isSpaceC) <:+ l.reverse := List.dropWhile_suffix _
  have h2 := List.reverse_prefix.mpr h
  simpa [rstrip] using h2

/-- `lstrip` is a suffix of the original. -/
theorem lstrip_isSuffixOfSelf (l : Str) : lstrip l <:+ l := List.dropWhile_suffix _

/-- Members of `strip l` are members of `l`. -/
theorem mem_of_mem_strip {c : Char} {l : Str} (h : c ∈ strip l) : c ∈ l :=
  (lstrip_isSuffixOfSelf l).sublist.subset ((rstrip_isPrefixOfSelf (lstrip l)).sublist.subset h)

/-- A prefix of a list with no leading whitespace has none either. -/
theorem noLead_of_isPrefixOf {l₁ l₂ : Str} (h : l₁ <+: l₂) (hn : noLeadSpace l₂) :
    noLeadSpace l₁ := by
  intro c hc
  cases l₁ with
  | nil => cases hc
  | cons a rest =>
    cases hc
    obtain ⟨t, ht⟩ := h
    exact hn _ (by rw [← ht]; rfl)

/-- `strip` leaves no leading whitespace. -/
theorem noLead_strip (l : Str) : noLeadSpace (strip l) :=
  noLead_of_isPrefixOf (rstrip_isPrefixOfSelf (lstrip l)) (dropWhile_noLead l)

/-- `strip` leaves no trailing whitespace. -/
theorem noTail_strip (l : Str) : noLeadSpace (strip l).reverse := by
  have h : (strip l).reverse = (lstrip l).reverse.dropWhile isSpaceC := by
    simp [strip, rstrip]
  rw [h]
  exact dropWhile_noLead _

/-- `dropWhile` is the identity on a list with no leading whitespace. -/
theorem dropWhile_eq_self_of_noLead (l : Str) (h : noLeadSpace l) :
    l.dropWhile isSpaceC = l := by
  cases l with
  | nil => rfl
  | cons a rest =>
    have := h a rfl
    rw [List.dropWhile_cons_of_neg (by simp [this])]

/-- `strip` is the identity when both ends carry no whitespace. -/
theorem strip_eq_self (l : Str) (h1 : noLeadSpace l) (h2 : noLeadSpace l.reverse) :
    strip l = l := by
  unfold strip lstrip rstrip
  rw [dropWhile_eq_self_of_noLead l h1, dropWhile_eq_self_of_noLead l.reverse h2,
    List.reverse_reverse]

/-- Characters emitted by the whitespace collapser: the inserted space or an
original character. -/
theorem mem_collapseWsAux (l : Str) : ∀ b, ∀ c ∈ collapseWsAux b l, c = ' ' ∨ c ∈ l := by
  induction l with
  | nil => intro b c hc; cases hc
  | cons a rest ih =>
    intro b c hc
    unfold collapseWsAux at hc
    split at hc
    · split at hc
      · rcases ih true c hc with h | h
        · exact Or.inl h
        · exact Or.inr (List.mem_cons_of_mem a h)
      · rcases List.mem_cons.mp hc with rfl | h
        · exact Or.inl rfl
        · rcases ih true c h with h' | h'
          · exact Or.inl h'
          · exact Or.inr (List.mem_cons_of_mem a h')
    · rcases List.mem_cons.mp hc with rfl | h
      · exact Or.inr (List.mem_cons_self _ _)
      · rcases ih false c h with h' | h'
        · exact Or.inl h'
        · exact Or.inr (List.mem_cons_of_mem a h')

/-- Every whitespace character the collapser emits is the plain space. -/
theorem collapseWsAux_space (l : Str) :
    ∀ b, ∀ c ∈ collapseWsAux b l, isSpaceC c = true → c = ' ' := by
  induction l with
  | nil => intro b c hc; cases hc
  | cons a rest ih =>
    intro b c hc hsp
    unfold collapseWsAux at hc
    split at hc
    · split at hc
      · exact ih true c hc hsp
      · rcases List.mem_cons.mp hc with rfl | h
        · rfl
        · exact ih true c h hsp
    · rcases List.mem_cons.mp hc with rfl | h
      · rename_i hna
        simp [hsp] at hna
      · exact ih false c h hsp

/-- In run-mode the collapser starts with a non-space character. -/
theorem collapseWsAux_true_noLead (l : Str) : noLeadSpace (collapseWsAux true l) := by
  induction l with
  | nil => intro c hc; cases hc
  | cons a rest ih =>
    unfold collapseWsAux
    split
    · exact ih
    · rename_i hna
      intro c hc
      cases hc
      simpa using hna

/-- The collapser never emits two adjacent whitespace characters. -/
theorem chain_collapseWsAux (l : Str) : ∀ b, List.Chain' noWsPair (collapseWsAux b l) := by
  induction l with
  | nil => intro b; exact List.chain'_nil
  | cons a rest ih =>
    intro b
    unfold collapseWsAux
    split
    · split
      · exact ih true
      · refine List.chain'_cons'.mpr ⟨?_, ih true⟩
        intro h hh
        intro ⟨_, hsp⟩
        have := collapseWsAux_true_noLead rest h hh
        rw [this] at hsp
        cases hsp
    · rename_i hna
      refine List.chain'_cons'.mpr ⟨?_, ih false⟩
      intro h hh
      intro ⟨hsp, _⟩
      simp [hsp] at hna

/-- When the next character is not whitespace the run flag is irrelevant. -/
theorem collapseWsAux_true_of_noLead (l : Str) (h : noLeadSpace l) :
    collapseWsAux true l = collapseWsAux false l := by
  cases l with
  | nil => rfl
  | cons a rest =>
    have := h a rfl
    unfold collapseWsAux
    rw [if_neg (by simp [this]), if_neg (by simp [this])]

/-- The collapser is the identity on text whose whitespace is single plain
spaces with no two adjacent. -/
theorem collapseWs_eq_self (l : Str) (hsp : ∀ c ∈ l, isSpaceC c = true → c = ' ')
    (hch : List.Chain' noWsPair l) : collapseWs l = l := by
  unfold collapseWs
  induction l with
  | nil => rfl
  | cons a rest ih =>
    obtain ⟨hhead, htail⟩ := List.chain'_cons'.mp hch
    have hrest : collapseWsAux false rest = rest :=
      ih (fun c hc h => hsp c (List.mem_cons_of_mem a hc) h) htail
    by_cases hsa : isSpaceC a = true
    · have ha : a = ' ' := hsp a (List.mem_cons_self a rest) hsa
      subst ha
      unfold collapseWsAux
      rw [if_pos (by decide), if_neg (by simp)]
      have hnl : noLeadSpace rest := by
        intro c hc
        have := hhead c hc
        unfold noWsPair at this
        by_cases h : isSpaceC c = true
        · exact absurd ⟨by decide, h⟩ this
        · simpa using h
      rw [collapseWsAux_true_of_noLead rest hnl, hrest]
    · unfold collapseWsAux
      rw [if_neg hsa, hrest]

/-- The keep-class of `normalize_keyword`'s filter. -/
theorem keepKw_of_space (c : Char) (h : isSpaceC c = true) :
    (isWordC c || isSpaceC c || c = '-') = true := by
  simp [h]

/-- Normal form of `normalize_keyword`'s output: kept characters, fixed under
lowering, whitespace only as single interior plain spaces. -/
theorem normalize_keyword_normal (s : Str) :
    (∀ c ∈ normalize_keyword s, (isWordC c || isSpaceC c || c = '-') = true) ∧
    (∀ c ∈ normalize_keyword s, lowerChar c = c) ∧
    (∀ c ∈ normalize_keyword s, isSpaceC c = true → c = ' ') ∧
    List.Chain' noWsPair (normalize_keyword s) ∧
    noLeadSpace (normalize_keyword s) ∧ noLeadSpace (normalize_keyword s).reverse := by
  by_cases hs : s = []
  · subst hs
    refine ⟨?_, ?_, ?_, ?_, ?_, ?_⟩ <;> simp [normalize_keyword] <;> intro c hc <;> cases hc
  · have hunf : normalize_keyword s =
        strip (collapseWs (((strip s).map lowerChar).filter
          (fun c => isWordC c || isSpaceC c || c = '-'))) := by
      unfold normalize_keyword
      rw [if_neg hs]
      rfl
    set s3 := ((strip s).map lowerChar).filter (fun c => isWordC c || isSpaceC c || c = '-')
      with hs3
    have hmem : ∀ c ∈ normalize_keyword s, c = ' ' ∨ c ∈ s3 := by
      intro c hc
      rw [hunf] at hc
      exact mem_collapseWsAux s3 false c (mem_of_mem_strip hc)
    have hmemsp : ∀ c ∈ normalize_keyword s, isSpaceC c = true → c = ' ' := by
      intro c hc hsp
      rw [hunf] at hc
      exact collapseWsAux_space s3 false c (mem_of_mem_strip hc) hsp
    refine ⟨?_, ?_, hmemsp, ?_, ?_, ?_⟩
    · intro c hc
      rcases hmem c hc with rfl | h
      · decide
      · exact (List.mem_filter.mp h).2
    · intro c hc
      rcases hmem c hc with rfl | h
      · decide
      · obtain ⟨d, _, rfl⟩ := List.mem_map.mp (List.mem_filter.mp h).1
        exact lowerChar_idem d
    · rw [hunf]
      exact List.Chain'.prefix
        ((chain_collapseWsAux s3 false).suffix (lstrip_isSuffixOfSelf _))
        (rstrip_isPrefixOfSelf _)
    · rw [hunf]; exact noLead_strip _
    · rw [hunf]; exact noTail_strip _

/-- `normalize_keyword` is the identity on text in normal form. -/
theorem normalize_keyword_eq_self (l : Str)
    (hk : ∀ c ∈ l, (isWordC c || isSpaceC c || c = '-') = true)
    (hl : ∀ c ∈ l, lowerChar c = c)
    (hsp : ∀ c ∈ l, isSpaceC c = true → c = ' ')
    (hch : List.Chain' noWsPair l)
    (h1 : noLeadSpace l) (h2 : noLeadSpace l.reverse) :
    normalize_keyword l = l := by
  by_cases hnil : l = []
  · subst hnil; rfl
  · unfold normalize_keyword
    rw [if_neg hnil]
    rw [strip_eq_self l h1 h2]
    show strip (collapseWs ((l.map lowerChar).filter _)) = l
    rw [map_id_of_mem lowerChar l hl]
    rw [List.filter_eq_self.mpr hk]
    rw [collapseWs_eq_self l hsp hch]
    exact strip_eq_self l h1 h2

/-- `normalize_keyword` is idempotent. -/
theorem normalize_keyword_idem (s : Str) :
    normalize_keyword (normalize_keyword s) = normalize_keyword s := by
  obtain ⟨hk, hl, hsp, hch, h1, h2⟩ := normalize_keyword_normal s
  exact normalize_keyword_eq_self _ hk hl hsp hch h1 h2

/-- What the dedup loop emits: entries of the input, non-empty, not seen. -/
theorem mem_dedupeNonempty :
    ∀ (l : List Str) (seen : List Str) (k : Str), k ∈ dedupeNonempty seen l →
      k ∈ l ∧ k ≠ [] ∧ k ∉ seen := by
  intro l
  induction l with
  | nil => intro seen k h; cases h
  | cons kw kws ih =>
    intro seen k h
    unfold dedupeNonempty at h
    split at h
    · rename_i hcond
      rcases List.mem_cons.mp h with rfl | hmem
      · exact ⟨List.mem_cons_self _ _, hcond.1, hcond.2⟩
      · obtain ⟨hin, hne, hnsee⟩ := ih (kw :: seen) k hmem
        exact ⟨List.mem_cons_of_mem kw hin, hne,
          fun hk => hnsee (List.mem_cons_of_mem kw hk)⟩
    · obtain ⟨hin, hne, hnsee⟩ := ih seen k h
      exact ⟨List.mem_cons_of_mem kw hin, hne, hnsee⟩

/-- The dedup loop emits no duplicates. -/
theorem nodup_dedupeNonempty :
    ∀ (l : List Str) (seen : List Str), (dedupeNonempty seen l).Nodup := by
  intro l
  induction l with
  | nil => intro seen; exact List.nodup_nil
  | cons kw kws ih =>
    intro seen
    unfold dedupeNonempty
    split
    · refine List.nodup_cons.mpr ⟨?_, ih (kw :: seen)⟩
      intro hmem
      exact (mem_dedupeNonempty kws (kw :: seen) kw hmem).2.2 (List.mem_cons_self _ _)
    · exact ih seen

/-- The dedup loop is the identity on a duplicate-free list of unseen
non-empty entries. -/
theorem dedupeNonempty_eq_self :
    ∀ (l : List Str) (seen : List Str), l.Nodup → (∀ k ∈ l, k ≠ [] ∧ k ∉ seen) →
      dedupeNonempty seen l = l := by
  intro l
  induction l with
  | nil => intro seen _ _; rfl
  | cons kw kws ih =>
    intro seen hnd h
    obtain ⟨hkw, hkws⟩ := List.nodup_cons.mp hnd
    unfold dedupeNonempty
    rw [if_pos (h kw (List.mem_cons_self _ _))]
    congr 1
    refine ih (kw :: seen) hkws ?_
    intro k hk
    refine ⟨(h k (List.mem_cons_of_mem kw hk)).1, ?_⟩
    intro hmem
    rcases List.mem_cons.mp hmem with rfl | hmem'
    · exact hkw hk
    · exact (h k (List.mem_cons_of_mem kw hk)).2 hmem'

/-- C9: keyword normalization is idempotent, both per string and at the list
level (normalize each entry, drop empties, dedupe preserving first
occurrence). -/
theorem normalization_idempotent :
    (∀ s : Str, normalize_keyword (normalize_keyword s) = normalize_keyword s) ∧
    (∀ ks : List Str, normalize_keywords (normalize_keywords ks) = normalize_keywords ks) := by
  refine ⟨normalize_keyword_idem, ?_⟩
  intro ks
  have hmem : ∀ k ∈ normalize_keywords ks, k ≠ [] ∧ normalize_keyword k = k := by
    intro k hk
    unfold normalize_keywords at hk
    obtain ⟨hin, hne, _⟩ := mem_dedupeNonempty _ [] k hk
    refine ⟨hne, ?_⟩
    obtain ⟨x, _, rfl⟩ := List.mem_map.mp hin
    exact normalize_keyword_idem x
  have hnd : (normalize_keywords ks).Nodup := nodup_dedupeNonempty _ []
  conv_lhs => rw [normalize_keywords]
  rw [List.filter_eq_self.mpr (fun k hk => by simp [(hmem k hk).1])]
  rw [map_id_of_mem normalize_keyword _ (fun k hk => (hmem k hk).2)]
  exact dedupeNonempty_eq_self _ [] hnd
    (fun k hk => ⟨(hmem k hk).1, by simp⟩)

/-- C10: the keyword-list normalizer drops entries that normalize to empty,
so it returns only non-empty, already-normalized keywords, and can shorten a
duplicate-free input. -/
theorem normalize_keywords_drops_empty :
    (∀ ks : List Str, ∀ k ∈ normalize_keywords ks, k ≠ [] ∧ normalize_keyword k = k) ∧
    kwListEx.Nodup ∧
    normalize_keywords kwListEx = [chars "kaos polos"] ∧
    (normalize_keywords kwListEx).length < kwListEx.length := by
  refine ⟨?_, by decide, by decide, by decide⟩
  intro ks k hk
  unfold normalize_keywords at hk
  obtain ⟨hin, hne, _⟩ := mem_dedupeNonempty _ [] k hk
  refine ⟨hne, ?_⟩
  obtain ⟨x, _, rfl⟩ := List.mem_map.mp hin
  exact normalize_keyword_idem x

/-- C10 (witness): applied to the concrete list with a punctuation-only entry. -/
theorem normalize_keywords_drops_empty_witness :
    chars "kaos polos" ≠ [] ∧
    normalize_keyword (chars "kaos polos") = chars "kaos polos" :=
  normalize_keywords_drops_empty.1 kwListEx (chars "kaos polos") (by decide)

/-- `pct` at an integral fractional index is plain list indexing. -/
theorem pct_nat_index (vals : List ℚ) (p : ℚ) (j : ℕ) (hk : pctK vals p = (j : ℚ)) :
    pct vals p = vals.getD j 0 := by
  unfold pct
  rw [hk]
  rw [Int.floor_natCast, Int.ceil_natCast]
  rw [if_pos rfl]
  simp

/-- The sorted price list has as many entries as there are positive prices. -/
theorem sortedPricesOf_length (ps : List Record) :
    (sortedPricesOf ps).length = (_extract_prices ps).length :=
  (List.perm_insertionSort _ _).length_eq

/-- With at least four positive prices, `_iqr_bounds` returns the clamped
interpolated quartile bounds. -/
theorem _iqr_bounds_of_many (ps : List Record) (h : 4 ≤ (_extract_prices ps).length) :
    _iqr_bounds (_extract_prices ps) =
      (max 0 (q1Of ps - 3/2 * (q3Of ps - q1Of ps)),
       some (q3Of ps + 3/2 * (q3Of ps - q1Of ps))) := by
  unfold _iqr_bounds
  rw [if_neg (by rw [← sortedPricesOf] at *; rw [sortedPricesOf_length]; omega)]
  simp only [q1Of, q3Of, sortedPricesOf]

/-- C4: with fewer than eight positive prices the filter applies only the hard
sanity bounds (no IQR outlier removal); with at least eight, any positively
priced record below `Q1 − 1.5·IQR` or above `Q3 + 1.5·IQR` is removed; and a
record without a positive numeric price is never removed by this step. -/
theorem price_filter_spec (ps : List Record) :
    ((_extract_prices ps).length < 8 →
      survivors ps = ps.filter (fun p =>
        match p.price with
        | some v => if 0 < v then (if v < 500 ∨ 200000000 < v then false else true) else true
        | none => true)) ∧
    (∀ p ∈ ps, 8 ≤ (_extract_prices ps).length → ∀ v, p.price = some v → 0 < v →
      (v < q1Of ps - 3/2 * (q3Of ps - q1Of ps) ∨ q3Of ps + 3/2 * (q3Of ps - q1Of ps) < v) →
      p ∉ survivors ps) ∧
    (∀ p ∈ ps, (∀ v, p.price = some v → ¬(0 < v)) → p ∈ survivors ps) := by
  refine ⟨?_, ?_, ?_⟩
  · intro hlt
    unfold survivors
    refine List.filter_congr ?_
    intro p _
    unfold keepProduct
    cases hp : p.price with
    | none => simp only [keepPrice]
    | some v =>
      simp only [keepPrice]
      by_cases hpos : 0 < v
      · rw [if_pos hpos, if_pos hpos]
        rw [if_neg (fun hand => absurd hand.1 (by omega))]
      · rw [if_neg hpos, if_neg hpos]
  · intro p hp h8 v hv hpos hout hmem
    unfold survivors at hmem
    have hkeep := (List.mem_filter.mp hmem).2
    rw [_iqr_bounds_of_many ps (by omega)] at hkeep
    unfold keepProduct at hkeep
    rw [hv] at hkeep
    simp only [keepPrice] at hkeep
    rw [if_pos hpos] at hkeep
    rw [if_pos ?_] at hkeep
    · cases hkeep
    · refine ⟨h8, ?_⟩
      rcases hout with hlow | hhigh
      · exact Or.inl (lt_of_lt_of_le hlow (le_max_right _ _))
      · exact Or.inr (by simp [priceAboveHigh, hhigh])
  · intro p hp hnot
    unfold survivors
    refine List.mem_filter.mpr ⟨hp, ?_⟩
    unfold keepProduct
    cases hpr : p.price with
    | none => simp only [keepPrice]
    | some v =>
      simp only [keepPrice]
      rw [if_neg (hnot v hpr)]

/-- C4 (witness): the three parts at concrete record lists — two priced
records keep only the hard bounds, a far outlier among nine prices is removed,
and an unpriced record survives. -/
theorem price_filter_spec_witness :
    ((_extract_prices psFew).length < 8 ∧
      survivors psFew = psFew.filter (fun p =>
        match p.price with
        | some v => if 0 < v then (if v < 500 ∨ 200000000 < v then false else true) else true
        | none => true)) ∧
    (8 ≤ (_extract_prices ps9).length ∧
      pricedRecord 1000000 ∉ survivors ps9) ∧
    emptyRecord ∈ survivors psFew := by
  have hs : sortedPricesOf ps9 =
      [1000, 1000, 1000, 1000, 1000, 1000, 1000, 1000, 1000000] := by decide
  have hq1 : q1Of ps9 = 1000 := by
    rw [q1Of, pct_nat_index _ _ 2 (by rw [pctK, hs]; norm_num), hs]
    decide
  have hq3 : q3Of ps9 = 1000 := by
    rw [q3Of, pct_nat_index _ _ 6 (by rw [pctK, hs]; norm_num), hs]
    decide
  refine ⟨⟨by decide, (price_filter_spec psFew).1 (by decide)⟩, ⟨by decide, ?_⟩, ?_⟩
  · refine (price_filter_spec ps9).2.1 (pricedRecord 1000000) (by decide) (by decide)
      1000000 rfl (by norm_num) ?_
    rw [hq1, hq3]
    norm_num
  · refine (price_filter_spec psFew).2.2 emptyRecord (by decide) ?_
    intro v hv
    cases hv

/-- Inserting keeps exactly the elements (as a permutation). -/
theorem insertDesc_perm (x : ℚ × Record) :
    ∀ l : List (ℚ × Record), (insertDesc x l).Perm (x :: l) := by
  intro l
  induction l with
  | nil => exact List.Perm.refl _
  | cons y ys ih =>
    unfold insertDesc
    split
    · exact List.Perm.refl _
    · exact (List.Perm.cons y ih).trans (List.Perm.swap x y ys)

/-- The stable sort is a permutation of its input. -/
theorem sortDescStable_perm : ∀ l : List (ℚ × Record), (sortDescStable l).Perm l := by
  intro l
  induction l with
  | nil => exact List.Perm.refl _
  | cons x xs ih =>
    exact (insertDesc_perm x (sortDescStable xs)).trans (List.Perm.cons x ih)

/-- Inserting into a descending-sorted list keeps it descending-sorted. -/
theorem pairwise_insertDesc (x : ℚ × Record) :
    ∀ l : List (ℚ × Record), l.Pairwise (fun a b => b.1 ≤ a.1) →
      (insertDesc x l).Pairwise (fun a b => b.1 ≤ a.1) := by
  intro l
  induction l with
  | nil => intro _; simp [insertDesc]
  | cons y ys ih =>
    intro h
    obtain ⟨hy, hys⟩ := List.pairwise_cons.mp h
    unfold insertDesc
    split
    · rename_i hle
      refine List.pairwise_cons.mpr ⟨?_, h⟩
      intro z hz
      rcases List.mem_cons.mp hz with rfl | hz'
      · exact hle
      · exact le_trans (hy z hz') hle
    · rename_i hgt
      refine List.pairwise_cons.mpr ⟨?_, ih hys⟩
      intro z hz
      have hz' := (insertDesc_perm x ys).mem_iff.mp hz
      rcases List.mem_cons.mp hz' with rfl | hz''
      · exact le_of_not_le hgt
      · exact hy z hz''

/-- The stable sort output is descending-sorted by key. -/
theorem pairwise_sortDescStable :
    ∀ l : List (ℚ × Record), (sortDescStable l).Pairwise (fun a b => b.1 ≤ a.1) := by
  intro l
  induction l with
  | nil => simp [sortDescStable]
  | cons x xs ih => exact pairwise_insertDesc x (sortDescStable xs) ih

/-- Inserting never reorders the elements of any fixed key (stability). -/
theorem filter_key_insertDesc (x : ℚ × Record) (s : ℚ) :
    ∀ l : List (ℚ × Record),
      (insertDesc x l).filter (fun z => decide (z.1 = s)) =
        ((x :: l).filter (fun z => decide (z.1 = s))) := by
  intro l
  induction l with
  | nil => rfl
  | cons y ys ih =>
    unfold insertDesc
    split
    · rfl
    · rename_i hgt
      by_cases hx : x.1 = s
      · have hy : ¬(y.1 = s) := by
          intro hy
          exact hgt (by simp [hy, hx])
        simp [List.filter_cons, hx, hy, ih]
      · simp [List.filter_cons, hx, ih]

/-- The stable sort preserves the relative order of equal-key elements. -/
theorem filter_key_sortDescStable (s : ℚ) :
    ∀ l : List (ℚ × Record),
      (sortDescStable l).filter (fun z => decide (z.1 = s)) =
        l.filter (fun z => decide (z.1 = s)) := by
  intro l
  induction l with
  | nil => rfl
  | cons x xs ih =>
    show (insertDesc x (sortDescStable xs)).filter _ = _
    rw [filter_key_insertDesc x s (sortDescStable xs)]
    simp [List.filter_cons, ih]

/-- Projecting the record back out of the scored pairs is the identity. -/
theorem map_snd_map_pair (keyword : Str) (L : List Record) :
    (L.map (fun p => (compositeScore keyword p, p))).map (fun x : ℚ × Record => x.2) = L := by
  induction L with
  | nil => rfl
  | cons a t ih => simp [ih]

/-- C5: the ranker scores each surviving record as 0.75·(Jaccard relevance) +
0.25·(completeness), returns survivors in descending composite-score order
with ties preserving the input (discovery) order, and returns at most the
first `top_n` records. -/
theorem rank_spec (keyword : Str) (products : List Record) (top_n : ℕ) :
    (∀ p : Record, compositeScore keyword p =
        3/4 * _relevance_score keyword p.product_name + 1/4 * _completeness_score p) ∧
    (rank_and_select_top_n keyword products top_n).length ≤ top_n ∧
    (survivors products).Sublist products ∧
    (rank_and_select_top_n keyword products top_n).Pairwise
      (fun a b => compositeScore keyword b ≤ compositeScore keyword a) ∧
    (∀ s : ℚ,
      (rank_and_select_top_n keyword products top_n).filter
          (fun p => decide (compositeScore keyword p = s)) <+:
        (survivors products).filter (fun p => decide (compositeScore keyword p = s))) := by
  have hsurv : (survivors products).Sublist products := by
    unfold survivors
    exact List.filter_sublist _
  by_cases hps : products = []
  · subst hps
    refine ⟨fun p => rfl, ?_, hsurv, ?_, ?_⟩
    · simp [rank_and_select_top_n]
    · simp [rank_and_select_top_n]
    · intro s
      simp only [rank_and_select_top_n, if_pos rfl]
      exact List.nil_prefix
  · have hrank : rank_and_select_top_n keyword products top_n =
        ((sortDescStable ((survivors products).map
          (fun p => (compositeScore keyword p, p)))).take top_n).map (fun x => x.2) := by
      unfold rank_and_select_top_n
      rw [if_neg hps]
    set scored := (survivors products).map (fun p => (compositeScore keyword p, p))
      with hscored
    have hfst : ∀ z ∈ sortDescStable scored, z.1 = compositeScore keyword z.2 := by
      intro z hz
      have hz' : z ∈ scored := (sortDescStable_perm scored).mem_iff.mp hz
      rw [hscored] at hz'
      obtain ⟨p, _, rfl⟩ := List.mem_map.mp hz'
      rfl
    refine ⟨fun p => rfl, ?_, hsurv, ?_, ?_⟩
    · rw [hrank]
      rw [List.length_map]
      exact List.length_take_le _ _
    · rw [hrank]
      refine (List.pairwise_map).mpr ?_
      have hpw := (pairwise_sortDescStable scored).sublist
        (List.take_prefix top_n (sortDescStable scored)).sublist
      refine List.Pairwise.imp_of_mem ?_ hpw
      intro a b ha hb hr
      have hsub := (List.take_prefix top_n (sortDescStable scored)).sublist.subset
      rw [hfst a (hsub ha), hfst b (hsub hb)] at hr
      exact hr
    · intro s
      rw [hrank]
      rw [List.filter_map]
      have hcongr : ((sortDescStable scored).take top_n).filter
          ((fun p => decide (compositeScore keyword p = s)) ∘ (fun x : ℚ × Record => x.2)) =
          ((sortDescStable scored).take top_n).filter (fun z => decide (z.1 = s)) := by
        refine List.filter_congr ?_
        intro z hz
        have hzf := hfst z ((List.take_prefix top_n (sortDescStable scored)).sublist.subset hz)
        simp [Function.comp, hzf]
      rw [hcongr]
      have hpre : ((sortDescStable scored).take top_n).filter (fun z => decide (z.1 = s)) <+:
          (sortDescStable scored).filter (fun z => decide (z.1 = s)) :=
        (List.take_prefix top_n (sortDescStable scored)).filter _
      rw [filter_key_sortDescStable s scored] at hpre
      have hsc : scored.filter (fun z => decide (z.1 = s)) =
          ((survivors products).filter
            (fun p => decide (compositeScore keyword p = s))).map
            (fun p => (compositeScore keyword p, p)) := by
        rw [hscored, List.filter_map]
        rfl
      rw [hsc] at hpre
      have hfinal := hpre.map (fun x : ℚ × Record => x.2)
      rw [map_snd_map_pair] at hfinal
      exact hfinal

set_option maxHeartbeats 3200000

/-- C1 (counterexample): with three resolved records whose first two prices
fall outside the hard sanity bounds, the pipeline's rows (the first two
resolved records, unranked) differ from the ranker's top-N output (which
keeps only the third record), for both N = 2 and the ranker's default N = 5. -/
theorem pipeline_rows_not_ranked :
    (processKeyword kwSepatu nowIso [candKaos, candBaju, candSepatu] resolveKeep ≠
      (rank_and_select_top_n kwSepatu
        (detailLoop kwSepatu nowIso resolveKeep [candKaos, candBaju, candSepatu]) 2).map
        (fun t => normalize_output_row
          ({ t with image_local_path := [], image_local_paths := [] } : Record).toInRow)) ∧
    (processKeyword kwSepatu nowIso [candKaos, candBaju, candSepatu] resolveKeep ≠
      (rank_and_select_top_n kwSepatu
        (detailLoop kwSepatu nowIso resolveKeep [candKaos, candBaju, candSepatu]) 5).map
        (fun t => normalize_output_row
          ({ t with image_local_path := [], image_local_paths := [] } : Record).toInRow)) := by
  refine ⟨by decide, by decide⟩

/-- C1 (amended): the per-keyword pipeline body never invokes the ranker —
the rows it emits for a keyword are exactly the normalized first
`min(2, count)` successfully resolved records, in discovery order (with the
image-path fields cleared when image download is off), so at most two rows
per keyword. -/
theorem processKeyword_take2 (kw now : Str) (candidates : List Record)
    (resolve : Record → Option DetailFields) :
    processKeyword kw now candidates resolve =
      (((detailLoop kw now resolve candidates).take 2).map
          (fun t => { t with image_local_path := [], image_local_paths := [] })).map
        (fun t => normalize_output_row t.toInRow) ∧
    (processKeyword kw now candidates resolve).length ≤ 2 := by
  have h : processKeyword kw now candidates resolve =
      (((detailLoop kw now resolve candidates).take 2).map
          (fun t => { t with image_local_path := [], image_local_paths := [] })).map
        (fun t => normalize_output_row t.toInRow) := by
    by_cases hc : candidates = []
    · subst hc
      simp [processKeyword, detailLoop]
    · unfold processKeyword
      rw [if_neg hc]
      by_cases hd : detailLoop kw now resolve candidates = []
      · rw [if_pos hd, hd]
        rfl
      · rw [if_neg hd]
  refine ⟨h, ?_⟩
  rw [h, List.length_map, List.length_map]
  exact List.length_take_le _ _

set_option maxHeartbeats 200000

/-- A lookup on an association list succeeds for every key it lists. -/
theorem lookup_isSome_of_key_mem :
    ∀ (l : List (Str × Val)) (k : Str), k ∈ l.map Prod.fst → (l.lookup k).isSome = true := by
  intro l
  induction l with
  | nil => intro k h; cases h
  | cons e rest ih =>
    intro k h
    obtain ⟨ek, ev⟩ := e
    simp only [List.map_cons] at h
    rcases List.mem_cons.mp h with rfl | h'
    · simp [List.lookup]
    · by_cases hk : k == ek
      · simp [List.lookup, hk]
      · simp only [List.lookup, hk]
        exact ih k h'

/-- The `setdefault` fold changes nothing when every schema key is present. -/
theorem foldl_setdefault_eq_self :
    ∀ (ks : List Str) (out : List (Str × Val)),
      (∀ k ∈ ks, (out.lookup k).isSome = true) →
      ks.foldl (fun o k => if (o.lookup k).isSome then o else o ++ [(k, Val.vs [])]) out = out := by
  intro ks
  induction ks with
  | nil => intro out _; rfl
  | cons k rest ih =>
    intro out h
    rw [List.foldl_cons]
    rw [if_pos (h k (List.mem_cons_self k rest))]
    exact ih out (fun k' hk' => h k' (List.mem_cons_of_mem _ hk'))

/-- The output dict's keys are exactly the schema, in order. -/
theorem outPairs_keys (row : InRow) : (outPairs row).map Prod.fst = OUTPUT_SCHEMA := rfl

/-- `normalize_output_row` is the 13-entry dict literal: the `setdefault` loop
finds every key already present. -/
theorem normalize_output_row_eq (row : InRow) : normalize_output_row row = outPairs row := by
  unfold normalize_output_row applySetdefault
  refine foldl_setdefault_eq_self OUTPUT_SCHEMA (outPairs row) ?_
  intro k hk
  refine lookup_isSome_of_key_mem _ k ?_
  rw [outPairs_keys]
  exact hk

/-- C8 (counterexample): a missing upstream `source_site` is not coerced to
the empty string — it defaults to "tokopedia". -/
theorem output_row_source_site_counterexample :
    emptyInRow.source_site = none ∧
    (normalize_output_row emptyInRow).get? 11 =
      some (chars "source_site", Val.vs (chars "tokopedia")) ∧
    chars "tokopedia" ≠ [] := by
  refine ⟨rfl, ?_, by decide⟩
  rw [normalize_output_row_eq]
  decide

/-- C8 (amended): every output row lists exactly the 13 schema fields in
order; the price cell is a number or null; each missing upstream value yields
the empty string for the plain string and list fields, while a missing
`source_site` defaults to "tokopedia" and a missing currency (with no price
text to sniff) defaults to "IDR". -/
theorem output_row_schema_spec (row : InRow) :
    ((normalize_output_row row).map Prod.fst = OUTPUT_SCHEMA) ∧
    (∀ k ∈ OUTPUT_SCHEMA, ∃ v, (k, v) ∈ normalize_output_row row) ∧
    (priceOutOf row = Val.vnull ∨ ∃ q, priceOutOf row = Val.vnum q) ∧
    ((normalize_output_row row).get? 3 = some (chars "price", priceOutOf row)) ∧
    (row.input_keyword = none →
      (normalize_output_row row).get? 0 = some (chars "input_keyword", Val.vs [])) ∧
    (row.product_name = none →
      (normalize_output_row row).get? 1 = some (chars "product_name", Val.vs [])) ∧
    (row.description = none →
      (normalize_output_row row).get? 2 = some (chars "description", Val.vs [])) ∧
    (row.image_url = none →
      (normalize_output_row row).get? 5 = some (chars "image_url", Val.vs [])) ∧
    (row.image_local_path = none →
      (normalize_output_row row).get? 6 = some (chars "image_local_path", Val.vs [])) ∧
    (row.image_urls = none →
      (normalize_output_row row).get? 7 = some (chars "image_urls", Val.vs [])) ∧
    (row.image_local_paths = none →
      (normalize_output_row row).get? 8 = some (chars "image_local_paths", Val.vs [])) ∧
    (row.store_name = none →
      (normalize_output_row row).get? 9 = some (chars "store_name", Val.vs [])) ∧
    (row.product_url = none →
      (normalize_output_row row).get? 10 = some (chars "product_url", Val.vs [])) ∧
    (row.scraped_at = none →
      (normalize_output_row row).get? 12 = some (chars "scraped_at", Val.vs [])) ∧
    (row.source_site = none →
      (normalize_output_row row).get? 11 = some (chars "source_site", Val.vs (chars "tokopedia"))) ∧
    (row.currency = none → row.price = none →
      (normalize_output_row row).get? 4 = some (chars "currency", Val.vs (chars "IDR"))) := by
  rw [normalize_output_row_eq]
  refine ⟨outPairs_keys row, ?_, ?_, rfl, ?_, ?_, ?_, ?_, ?_, ?_, ?_, ?_, ?_, ?_, ?_, ?_⟩
  · intro k hk
    have hmem : k ∈ (outPairs row).map Prod.fst := by rw [outPairs_keys]; exact hk
    obtain ⟨⟨k', v⟩, hin, hk'⟩ := List.mem_map.mp hmem
    cases hk'
    exact ⟨v, hin⟩
  · rcases hpv : priceValOf row with _ | q
    · left; simp [priceOutOf, hpv]
    · right; exact ⟨q, by simp [priceOutOf, hpv]⟩
  · intro h; simp only [outPairs, h]; rfl
  · intro h; simp only [outPairs, h]; rfl
  · intro h; simp only [outPairs, h]; rfl
  · intro h; simp only [outPairs, h]; rfl
  · intro h; simp only [outPairs, h]; rfl
  · intro h; simp only [outPairs, h]; rfl
  · intro h; simp only [outPairs, h]; rfl
  · intro h; simp only [outPairs, h]; rfl
  · intro h; simp only [outPairs, h]; rfl
  · intro h; simp only [outPairs, h]; rfl
  · intro h
    simp only [outPairs, sourceSiteOf, h]
    rfl
  · intro hc hp
    have h0 : currency0Of row = chars "IDR" := by
      simp only [currency0Of, hc, hp, strOfPriceField]
      decide
    have h1 : currencyOf row = chars "IDR" := by
      rw [currencyOf, h0, if_neg (by decide)]
    simp only [outPairs, h1]
    rfl

/-- C8 (witness): the amended schema spec applied to the all-missing row. -/
theorem output_row_schema_spec_witness :
    (normalize_output_row emptyInRow).get? 0 = some (chars "input_keyword", Val.vs []) ∧
    (normalize_output_row emptyInRow).get? 11 =
      some (chars "source_site", Val.vs (chars "tokopedia")) ∧
    (normalize_output_row emptyInRow).get? 4 = some (chars "currency", Val.vs (chars "IDR")) ∧
    ∃ v, (chars "price", v) ∈ normalize_output_row emptyInRow := by
  obtain ⟨-, hmem, -, -, h0, -, -, -, -, -, -, -, -, -, h11, h4⟩ :=
    output_row_schema_spec emptyInRow
  exact ⟨h0 rfl, h11 rfl, h4 rfl rfl, hmem (chars "price") (by decide)⟩
